import Mathlib

/-! Verification of the oblivious-syncing-service repository: a Pedersen-style
vector commitment scheme (`src/lib.rs`: `commit`, `open`, `check`,
`batch_open`, `batch_check`) and a polynomial accumulator built on it
(`src/accumulator.rs`: `poly_from_roots`, `evaluate_poly`, `insert`,
`check_non_membership`).

The embedding is parameterised over the scalar field `F` (the source fixes
`F = Fr`, the prime scalar field of BLS12-377) and over the commitment group
`M`, an `F`-module (the source fixes `M = G1` of BLS12-377; affine and
projective representations denote the same group elements).  The generator
table `POINTS : [G1Affine; NUM_POINTS]` is derived at build time by
hash-to-curve from a trusted-setup transcript that is not part of the sources,
so it enters the embedding as a parameter `P : Nat → M` standing for
`POINTS[·]`; `hash_points_to_fr` (SHA-256 over canonical compressed
serializations, an external primitive) enters as a parameter `H : M → M → F`.
Rust panics (out-of-range slice indexing) are modelled by `Option.none`;
`anyhow` errors are modelled by `Except Err`. -/

namespace OSS

/-- Kinds of the `anyhow` errors raised by the source, one constructor per
distinct error message. -/
inductive Err : Type where
  | lengthMismatch
  | indexOutOfBounds
  | emptyIndices
  | duplicateIndex
  | unsortedOrDuplicate
  | candidateIsMember
deriving DecidableEq

/-- `NUM_POINTS` from src/lib.rs line 16. -/
def NUM_POINTS : Nat := 20

/-- `BLINDING_INDEX` from src/lib.rs line 17. -/
def BLINDING_INDEX : Nat := 0

/-- Rust slice indexing `v[i]` at a site where the index is *not* known to be
in bounds: `none` models the out-of-range panic. -/
def idx {α : Type} (v : List α) (i : Nat) : Option α := v[i]?

/-- Rust slice indexing `v[i]` at a site where a bounds check has already been
performed (the default value is never used on the guarded paths). -/
def nth {α : Type} [Zero α] (v : List α) (i : Nat) : α := v.getD i 0

/-- Sequential traversal of a Rust iterator whose body indexes a slice:
`none` as soon as any access panics. -/
def seqMap {α : Type} (f : Nat → Option α) : List Nat → Option (List α)
  | [] => some []
  | i :: rest =>
    match f i, seqMap f rest with
    | some a, some l => some (a :: l)
    | _, _ => none

section Poly

variable {F : Type} [Field F]

/-- Coefficientwise sum of two dense coefficient vectors (ark-poly addition of
`DensePolynomial`s, restricted to the vectors arising here, which never carry
trailing zero coefficients). -/
def polyAdd : List F → List F → List F
  | [], q => q
  | a :: p, [] => a :: p
  | a :: p, b :: q => (a + b) :: polyAdd p q

/-- Multiplication of a dense coefficient vector by a constant. -/
def polyScale (c : F) (p : List F) : List F := p.map (fun a => c * a)

/-- Dense polynomial multiplication: convolution of coefficient vectors, as
performed by `&poly * &linear` on ark-poly `DensePolynomial`s in
`poly_from_roots` (the factors there are monic, so no leading-zero
truncation ever occurs). -/
def polyMul : List F → List F → List F
  | [], _ => []
  | a :: p, q => polyAdd (polyScale a q) ((0 : F) :: polyMul p q)

/-- `poly_from_roots` from src/accumulator.rs lines 16-28: starting from the
constant polynomial `1`, multiply in one linear factor `x - root` (coefficient
vector `[-root, 1]`) per root. -/
def poly_from_roots (roots : List F) : List F :=
  roots.foldl (fun poly root => polyMul poly [-root, 1]) [1]

/-- `evaluate_poly` from src/accumulator.rs lines 12-14: evaluation of a dense
coefficient vector at a point (Horner form, mathematically `Σ coeffs[i]·v^i`
exactly as ark-poly's `evaluate`). -/
def evaluate_poly (coeffs : List F) (v : F) : F :=
  coeffs.foldr (fun c acc => c + v * acc) 0

end Poly

/-- The ascending sort `sorted_indices.sort_unstable()` of src/lib.rs line 81
(on naturals every correct sort returns the same, canonically ordered list). -/
def sortNat (l : List Nat) : List Nat := l.insertionSort (· ≤ ·)

/-- `sorted_indices.windows(2).any(|w| w[0] == w[1])` from src/lib.rs line 82. -/
def hasAdjEq : List Nat → Bool
  | a :: b :: rest => a == b || hasAdjEq (b :: rest)
  | _ => false

/-- `indices.windows(2).any(|w| w[0] >= w[1])` from src/lib.rs line 105. -/
def hasUnsorted : List Nat → Bool
  | a :: b :: rest => decide (b ≤ a) || hasUnsorted (b :: rest)
  | _ => false

section PCS

variable {F : Type} [Field F] [DecidableEq F]
variable {M : Type} [AddCommGroup M] [Module F M]
variable [DecidableEq M]
variable (P : Nat → M)

/-- `commit` from src/lib.rs lines 38-51: `r·P[0] + Σᵢ v[i]·P[i+1]`, guarded by
the vector-length check `v.len() != POINTS.len() - 1`.  The source zips
`POINTS[1..]` with `v`; here the slice `POINTS[1..]` is rendered as the index
list `range (NUM_POINTS - 1)` mapped through `P (· + 1)`. -/
def commit (v : List F) (r : F) : Except Err M :=
  if v.length ≠ NUM_POINTS - 1 then
    .error .lengthMismatch
  else
    let blind : M := r • P BLINDING_INDEX
    let h : M := (((List.range (NUM_POINTS - 1)).zip v).map
      (fun pr => pr.2 • P (pr.1 + 1))).sum
    .ok (blind + h)

/-- `open` from src/lib.rs lines 53-65 (named `openAt` because `open` is a Lean
keyword): bounds-check the opened index, then sum `P[i+1]·v[i]` over every
slot `i ≠ j` of the generator slice plus the blind.  The slot accesses `v[i]`
are unguarded in the source, hence modelled through `idx`/`seqMap`. -/
def openAt (v : List F) (r : F) (j : Nat) : Option (Except Err (F × F × M)) :=
  if j ≥ v.length then
    some (.error .indexOutOfBounds)
  else
    let blind : M := r • P BLINDING_INDEX
    match seqMap (fun i => (idx v i).map (fun vi => vi • P (i + 1)))
        ((List.range (NUM_POINTS - 1)).filter (fun i => i != j)) with
    | none => none
    | some terms => some (.ok (nth v j, r, terms.sum + blind))

/-- `check` from src/lib.rs lines 67-69: `c == witness + h_j * v_j`. -/
def check (c : M) (v_j : F) (witness : M) (h_j : M) : Bool :=
  decide (c = witness + v_j • h_j)

/-- `batch_open` from src/lib.rs lines 71-97: validate the index list (empty,
adjacent duplicates after sorting, bounds), then sum `P[i+1]·v[i]` over every
generator slot not among the sorted indices plus the blind, and read the
opened values off in sorted order. -/
def batch_open (v : List F) (r : F) (indices : List Nat) :
    Option (Except Err (List F × F × M)) :=
  if indices.isEmpty then
    some (.error .emptyIndices)
  else
    let sorted_indices := sortNat indices
    if hasAdjEq sorted_indices then
      some (.error .duplicateIndex)
    else if sorted_indices.any (fun i => decide (i ≥ v.length)) then
      some (.error .indexOutOfBounds)
    else
      let blind : M := r • P BLINDING_INDEX
      match seqMap (fun i => (idx v i).map (fun vi => vi • P (i + 1)))
          ((List.range (NUM_POINTS - 1)).filter
            (fun i => ! sorted_indices.contains i)) with
      | none => none
      | some terms =>
        some (.ok (sorted_indices.map (fun j => nth v j), r,
          terms.sum + blind))

/-- `batch_check` from src/lib.rs lines 99-114: length and strict-ascending
validation, then fold `acc + P[j+1]·v_j` over the zipped values and indices
starting from the witness.  `POINTS[j + 1]` is an array access into the
`NUM_POINTS`-element generator table, which panics when `j + 1 ≥ NUM_POINTS`;
the guard hoists that panic out of the fold. -/
def batch_check (c : M) (values : List F) (witness : M) (indices : List Nat) :
    Option (Except Err Bool) :=
  if values.length ≠ indices.length then
    some (.error .lengthMismatch)
  else if hasUnsorted indices then
    some (.error .unsortedOrDuplicate)
  else if indices.any (fun j => decide (NUM_POINTS ≤ j + 1)) then
    none
  else
    let s : M := (values.zip indices).foldl
      (fun acc pr => acc + pr.1 • P (pr.2 + 1)) witness
    some (.ok (decide (c = s)))

/-- `State` from src/accumulator.rs lines 40-43. -/
structure State (M : Type) where
  Accumulator : M
  Commitment : M
deriving DecidableEq

variable (H : M → M → F)

/-- `insert` from src/accumulator.rs lines 45-62: commit to the coefficient
vector of `poly_from_roots roots`, fold through the hash challenge
`h = H(a_prev, p_i)` as `next = h·a_prev + p_i`.  `H` stands for
`hash_points_to_fr`. -/
def insert (roots : List F) (a_prev : M) (r : F) : Except Err (State M) :=
  match commit P (poly_from_roots roots) r with
  | .error e => .error e
  | .ok p_i =>
    let h := H a_prev p_i
    .ok { Accumulator := h • a_prev + p_i, Commitment := p_i }

/-- `check_non_membership` from src/accumulator.rs lines 64-90: reject a
candidate at which the polynomial vanishes, commit, subtract `α·P[0]` from the
commitment, and fold the adjusted commitment through the hash challenge.  The
returned `Commitment` field is the unadjusted commitment. -/
def check_non_membership (roots : List F) (v : F) (r : F) (s_prev : M) :
    Except Err (State M) :=
  let coeffs := poly_from_roots roots
  let alpha := evaluate_poly coeffs v
  if alpha = 0 then
    .error .candidateIsMember
  else
    match commit P coeffs r with
    | .error e => .error e
    | .ok p_i =>
      let p_i_prime := p_i - alpha • P BLINDING_INDEX
      let h_prime := H s_prev p_i_prime
      .ok { Accumulator := h_prime • s_prev + p_i_prime, Commitment := p_i }

/-- Closed form of a successful `commit`:
`r·P[0] + Σ_{i < NUM_POINTS - 1} v[i]·P[i+1]`. -/
def commitVal (v : List F) (r : F) : M :=
  r • P BLINDING_INDEX +
    ((List.range (NUM_POINTS - 1)).map (fun i => nth v i • P (i + 1))).sum

/-- Closed form of the witness returned by a successful `openAt`: the sum over
all generator slots other than `j`, plus the blind. -/
def openWit (v : List F) (r : F) (j : Nat) : M :=
  (((List.range (NUM_POINTS - 1)).filter (fun i => i != j)).map
    (fun i => nth v i • P (i + 1))).sum + r • P BLINDING_INDEX

/-- Closed form of the witness returned by a successful `batch_open` on the
sorted index list `S`. -/
def batchWit (v : List F) (r : F) (S : List Nat) : M :=
  (((List.range (NUM_POINTS - 1)).filter (fun i => ! S.contains i)).map
    (fun i => nth v i • P (i + 1))).sum + r • P BLINDING_INDEX

/-- Closed form of the state returned by a successful `check_non_membership`. -/
def nmState (roots : List F) (v : F) (r : F) (s_prev : M) : State M :=
  let p : M := commitVal P (poly_from_roots roots) r
  let pp : M := p - evaluate_poly (poly_from_roots roots) v • P BLINDING_INDEX
  { Accumulator := H s_prev pp • s_prev + pp, Commitment := p }

end PCS

instance fact_prime_five : Fact (Nat.Prime 5) := ⟨by norm_num⟩

/-- Concrete scalar field and group used to instantiate the parametric
theorems at explicit inputs: the field `ZMod 5` acting on itself.  This is a
generator table for that instantiation. -/
def Pw : Nat → ZMod 5 := fun i => (i : ZMod 5) + 1

/-- Concrete stand-in for `hash_points_to_fr` in instantiations. -/
def Hw : ZMod 5 → ZMod 5 → ZMod 5 := fun a b => a + b + 1

/-- Concrete value vector of the full length `NUM_POINTS - 1 = 19`. -/
def vw : List (ZMod 5) := List.replicate 19 1

section PolyLemmas

variable {F : Type} [Field F]

lemma polyAdd_length (p q : List F) :
    (polyAdd p q).length = max p.length q.length := by
  induction p generalizing q with
  | nil => simp [polyAdd]
  | cons a p ih =>
    cases q with
    | nil => simp [polyAdd]
    | cons b q =>
      simp only [polyAdd, List.length_cons, ih]
      omega

lemma polyMul_length (p q : List F) (hp : p ≠ []) (hq : q ≠ []) :
    (polyMul p q).length = p.length + q.length - 1 := by
  have hq1 : 1 ≤ q.length := List.length_pos.mpr hq
  induction p with
  | nil => exact absurd rfl hp
  | cons a p ih =>
    cases p with
    | nil =>
      simp only [polyMul, polyAdd_length, polyScale, List.length_map,
        List.length_cons, List.length_nil]
      omega
    | cons a' p' =>
      have ih' := ih (by simp)
      simp only [polyMul, polyAdd_length, polyScale, List.length_map,
        List.length_cons] at ih' ⊢
      omega

lemma poly_from_roots_aux (roots : List F) (p : List F) (hp : p ≠ []) :
    (roots.foldl (fun poly root => polyMul poly [-root, 1]) p).length =
      p.length + roots.length ∧
    roots.foldl (fun poly root => polyMul poly [-root, 1]) p ≠ [] := by
  induction roots generalizing p with
  | nil => simpa using hp
  | cons a roots ih =>
    have h1 : (polyMul p [-a, 1]).length = p.length + 1 := by
      have := polyMul_length p [-a, 1] hp (by simp)
      simpa using this
    have h2 : polyMul p [-a, 1] ≠ [] := by
      intro h
      rw [h] at h1
      simp at h1
    obtain ⟨l1, l2⟩ := ih (polyMul p [-a, 1]) h2
    refine ⟨?_, l2⟩
    simp only [List.foldl_cons, l1, h1, List.length_cons]
    omega

lemma poly_from_roots_length (roots : List F) :
    (poly_from_roots roots).length = roots.length + 1 := by
  have h := (poly_from_roots_aux roots [1] (by simp)).1
  simpa [poly_from_roots, Nat.add_comm] using h

lemma evaluate_poly_nil (v : F) : evaluate_poly ([] : List F) v = 0 := rfl

lemma evaluate_poly_cons (c : F) (p : List F) (v : F) :
    evaluate_poly (c :: p) v = c + v * evaluate_poly p v := rfl

lemma evaluate_polyAdd (p q : List F) (v : F) :
    evaluate_poly (polyAdd p q) v = evaluate_poly p v + evaluate_poly q v := by
  induction p generalizing q with
  | nil => simp [polyAdd, evaluate_poly_nil]
  | cons a p ih =>
    cases q with
    | nil => simp [polyAdd, evaluate_poly_nil]
    | cons b q =>
      simp only [polyAdd, evaluate_poly_cons, ih]
      ring

lemma evaluate_polyScale (c : F) (p : List F) (v : F) :
    evaluate_poly (polyScale c p) v = c * evaluate_poly p v := by
  induction p with
  | nil => simp [polyScale, evaluate_poly_nil]
  | cons a p ih =>
    simp only [polyScale, List.map_cons, evaluate_poly_cons] at ih ⊢
    rw [ih]
    ring

lemma evaluate_polyMul (p q : List F) (v : F) :
    evaluate_poly (polyMul p q) v = evaluate_poly p v * evaluate_poly q v := by
  induction p with
  | nil => simp [polyMul, evaluate_poly_nil]
  | cons a p ih =>
    simp only [polyMul, evaluate_polyAdd, evaluate_polyScale,
      evaluate_poly_cons, ih]
    ring

lemma evaluate_poly_from_roots (roots : List F) (v : F) :
    evaluate_poly (poly_from_roots roots) v =
      (roots.map (fun a => v - a)).prod := by
  suffices h : ∀ p : List F,
      evaluate_poly (roots.foldl (fun poly root => polyMul poly [-root, 1]) p) v =
        evaluate_poly p v * (roots.map (fun a => v - a)).prod by
    have := h [1]
    simpa [poly_from_roots, evaluate_poly_cons, evaluate_poly_nil] using this
  induction roots with
  | nil => intro p; simp
  | cons a roots ih =>
    intro p
    simp only [List.foldl_cons, List.map_cons, List.prod_cons]
    rw [ih (polyMul p [-a, 1]), evaluate_polyMul]
    have hl : evaluate_poly ([-a, 1] : List F) v = v - a := by
      simp only [evaluate_poly_cons, evaluate_poly_nil]
      ring
    rw [hl]
    ring

lemma evaluate_poly_from_roots_eq_zero_iff (roots : List F) (v : F) :
    evaluate_poly (poly_from_roots roots) v = 0 ↔ v ∈ roots := by
  rw [evaluate_poly_from_roots, List.prod_eq_zero_iff]
  constructor
  · intro h
    obtain ⟨a, ha, he⟩ := List.mem_map.mp h
    have : v = a := sub_eq_zero.mp he
    exact this ▸ ha
  · intro hv
    exact List.mem_map.mpr ⟨v, hv, by ring⟩

end PolyLemmas

section ListLemmas

variable {α β : Type}

lemma idx_eq_some [Zero α] (v : List α) (i : Nat) (h : i < v.length) :
    idx v i = some (nth v i) := by
  simp [idx, nth, List.getElem?_eq_getElem h, List.getD_eq_getElem _ _ h]

lemma idx_eq_none (v : List α) (i : Nat) (h : v.length ≤ i) :
    idx v i = none := List.getElem?_eq_none h

lemma seqMap_all_lt [Zero α] (v : List α) (f : Nat → α → β) (l : List Nat)
    (h : ∀ i ∈ l, i < v.length) :
    seqMap (fun i => (idx v i).map (f i)) l =
      some (l.map (fun i => f i (nth v i))) := by
  induction l with
  | nil => rfl
  | cons i rest ih =>
    have hi : i < v.length := h i (by simp)
    rw [seqMap, idx_eq_some v i hi, ih (fun j hj => h j (by simp [hj]))]
    simp

lemma seqMap_panic [Zero α] (v : List α) (f : Nat → α → β) (l : List Nat)
    (h : ∃ i ∈ l, v.length ≤ i) :
    seqMap (fun i => (idx v i).map (f i)) l = none := by
  induction l with
  | nil => simp at h
  | cons i rest ih =>
    obtain ⟨j, hj, hge⟩ := h
    rcases List.mem_cons.mp hj with rfl | hmem
    · rw [seqMap, idx_eq_none v j hge]
      simp
    · have hrest := ih ⟨j, hmem, hge⟩
      rw [seqMap, hrest]
      cases (idx v i).map (f i) <;> simp

lemma filter_map_sum_split {M : Type} [AddCommMonoid M] (l : List Nat)
    (p : Nat → Bool) (t : Nat → M) :
    ((l.filter p).map t).sum + ((l.filter (fun i => ! p i)).map t).sum =
      (l.map t).sum := by
  induction l with
  | nil => simp
  | cons a l ih =>
    cases h : p a <;>
      simp only [List.filter_cons, h, Bool.not_true, Bool.not_false,
        if_true, if_false, List.map_cons, List.sum_cons, ← ih] <;>
      abel

lemma range_filter_beq (n j : Nat) (hj : j < n) :
    (List.range n).filter (fun i => i == j) = [j] := by
  induction n with
  | zero => omega
  | succ n ih =>
    rw [List.range_succ, List.filter_append]
    rcases Nat.lt_or_ge j n with h | h
    · rw [ih h]
      have : n ≠ j := by omega
      simp [this]
    · have hjn : j = n := by omega
      subst hjn
      have hnil : (List.range j).filter (fun i => i == j) = [] := by
        rw [List.filter_eq_nil_iff]
        intro a ha
        have : a < j := List.mem_range.mp ha
        simp
        omega
      rw [hnil]
      simp

lemma foldl_add_eq {M : Type} [AddCommMonoid M] (l : List α) (g : α → M)
    (init : M) :
    l.foldl (fun acc x => acc + g x) init = init + (l.map g).sum := by
  induction l generalizing init with
  | nil => simp
  | cons a l ih => simp [List.foldl_cons, ih, add_assoc]

lemma zip_map_self (S : List α) (f : α → β) :
    (S.map f).zip S = S.map (fun j => (f j, j)) := by
  induction S with
  | nil => rfl
  | cons a S ih => simp [ih]

lemma hasAdjEq_false_of_nodup (l : List Nat) (h : l.Nodup) :
    hasAdjEq l = false := by
  induction l with
  | nil => rfl
  | cons a l ih =>
    cases l with
    | nil => rfl
    | cons b t =>
      obtain ⟨hnotmem, h2⟩ := List.nodup_cons.mp h
      have hab : a ≠ b := fun e => hnotmem (e ▸ List.mem_cons_self b t)
      simp [hasAdjEq, hab, ih h2]

lemma nodup_of_sorted_hasAdjEq_false (l : List Nat)
    (hs : l.Sorted (· ≤ ·)) (h : hasAdjEq l = false) : l.Nodup := by
  induction l with
  | nil => simp
  | cons a l ih =>
    cases l with
    | nil => simp
    | cons b t =>
      rw [hasAdjEq, Bool.or_eq_false_iff] at h
      obtain ⟨hab', htail⟩ := h
      have hab : a ≠ b := by simpa using hab'
      obtain ⟨ha, hs'⟩ := List.sorted_cons.mp hs
      have hnd := ih hs' htail
      rw [List.nodup_cons]
      refine ⟨?_, hnd⟩
      intro hmem
      rcases List.mem_cons.mp hmem with rfl | hmem'
      · exact hab rfl
      · have h1 : a ≤ b := ha b (by simp)
        have h2 : b ≤ a := (List.sorted_cons.mp hs').1 a hmem'
        exact hab (Nat.le_antisymm h1 h2)

lemma hasUnsorted_false_iff (l : List Nat) :
    hasUnsorted l = false ↔ l.Sorted (· < ·) := by
  induction l with
  | nil => simp [hasUnsorted, List.Sorted]
  | cons a l ih =>
    cases l with
    | nil => simp [hasUnsorted, List.Sorted]
    | cons b t =>
      rw [hasUnsorted, Bool.or_eq_false_iff, ih]
      constructor
      · rintro ⟨hab', hsorted⟩
        have hab : a < b := by
          have := of_decide_eq_false hab'
          omega
        rw [List.sorted_cons]
        refine ⟨?_, hsorted⟩
        intro x hx
        rcases List.mem_cons.mp hx with rfl | hx'
        · exact hab
        · exact lt_trans hab ((List.sorted_cons.mp hsorted).1 x hx')
      · intro hsorted
        obtain ⟨ha, hs'⟩ := List.sorted_cons.mp hsorted
        refine ⟨?_, hs'⟩
        have : a < b := ha b (by simp)
        simpa using by omega

lemma sorted_lt_of_sorted_le_nodup (l : List Nat)
    (hs : l.Sorted (· ≤ ·)) (hnd : l.Nodup) : l.Sorted (· < ·) :=
  (List.Pairwise.and hs hnd).imp (fun h => lt_of_le_of_ne h.1 h.2)

lemma sortNat_perm (l : List Nat) : (sortNat l).Perm l :=
  List.perm_insertionSort _ l

lemma sortNat_sorted (l : List Nat) : (sortNat l).Sorted (· ≤ ·) :=
  List.sorted_insertionSort _ l

lemma sortNat_eq_of_perm {l₁ l₂ : List Nat} (h : l₁.Perm l₂) :
    sortNat l₁ = sortNat l₂ :=
  List.eq_of_perm_of_sorted
    ((sortNat_perm l₁).trans (h.trans (sortNat_perm l₂).symm))
    (sortNat_sorted l₁) (sortNat_sorted l₂)

lemma filter_contains_perm (S : List Nat) (n : Nat) (hnd : S.Nodup)
    (hb : ∀ i ∈ S, i < n) :
    ((List.range n).filter (fun i => S.contains i)).Perm S := by
  rw [List.perm_ext_iff_of_nodup
    (List.Nodup.filter _ (List.nodup_range n)) hnd]
  intro a
  simp only [List.mem_filter, List.mem_range]
  constructor
  · rintro ⟨_, h⟩
    simpa using h
  · intro h
    exact ⟨hb a h, by simpa using h⟩

end ListLemmas

section PCSLemmas

variable {F : Type} [Field F] [DecidableEq F]
variable {M : Type} [AddCommGroup M] [Module F M]
variable [DecidableEq M]
variable (P : Nat → M)

lemma zip_range_map (n : Nat) (v : List F) (h : v.length = n)
    (g : Nat → F → M) :
    ((List.range n).zip v).map (fun pr => g pr.1 pr.2) =
      (List.range n).map (fun i => g i (nth v i)) := by
  apply List.ext_getElem
  · simp [h]
  · intro i h1 h2
    have hiv : i < v.length := by
      simp [h] at h2
      omega
    simp only [List.getElem_map, List.getElem_zip, List.getElem_range]
    congr 1
    rw [nth, List.getD_eq_getElem _ _ hiv]

lemma commit_ok (v : List F) (r : F) (h : v.length = NUM_POINTS - 1) :
    commit P v r = .ok (commitVal P v r) := by
  unfold commit commitVal
  rw [if_neg (by simp [h])]
  rw [zip_range_map (NUM_POINTS - 1) v h (fun i vi => vi • P (i + 1))]

lemma commit_err_iff (v : List F) (r : F) :
    commit P v r = .error .lengthMismatch ↔ v.length ≠ NUM_POINTS - 1 := by
  unfold commit
  by_cases h : v.length ≠ NUM_POINTS - 1
  · simp [h]
  · simp [h]

lemma open_ok (v : List F) (r : F) (j : Nat) (hj : j < v.length)
    (hv : NUM_POINTS - 1 ≤ v.length) :
    openAt P v r j = some (.ok (nth v j, r, openWit P v r j)) := by
  unfold openAt
  rw [if_neg (by omega)]
  have hall : ∀ i ∈ (List.range (NUM_POINTS - 1)).filter (fun i => i != j),
      i < v.length := by
    intro i hi
    have := List.mem_range.mp (List.mem_filter.mp hi).1
    omega
  rw [seqMap_all_lt v (fun i vi => vi • P (i + 1)) _ hall]
  rfl

lemma open_panic (v : List F) (r : F) (j : Nat) (hj : j < v.length)
    (hv : v.length < NUM_POINTS - 1) :
    openAt P v r j = none := by
  unfold openAt
  rw [if_neg (by omega)]
  have hpanic : ∃ i ∈ (List.range (NUM_POINTS - 1)).filter (fun i => i != j),
      v.length ≤ i := by
    refine ⟨v.length, ?_, le_refl _⟩
    rw [List.mem_filter]
    constructor
    · exact List.mem_range.mpr (by omega)
    · simp
      omega
  rw [seqMap_panic v (fun i vi => vi • P (i + 1)) _ hpanic]

lemma open_oob_iff (v : List F) (r : F) (j : Nat) :
    openAt P v r j = some (.error .indexOutOfBounds) ↔ v.length ≤ j := by
  unfold openAt
  rcases Nat.lt_or_ge j v.length with h | h
  · rw [if_neg (by omega)]
    cases hsm : seqMap (fun i => (idx v i).map (fun vi => vi • P (i + 1)))
        ((List.range (NUM_POINTS - 1)).filter (fun i => i != j)) <;>
      simp [hsm] <;> omega
  · rw [if_pos (by omega)]
    simp
    omega

lemma openWit_eq_batchWit (v : List F) (r : F) (j : Nat) :
    openWit P v r j = batchWit P v r [j] := by
  unfold openWit batchWit
  have hf : (List.range (NUM_POINTS - 1)).filter (fun i => i != j) =
      (List.range (NUM_POINTS - 1)).filter (fun i => ! [j].contains i) := by
    apply List.filter_congr
    intro i _
    by_cases h : i = j <;> simp [List.contains, h]
  rw [hf]

lemma commitVal_split (v : List F) (r : F) (S : List Nat) (hnd : S.Nodup)
    (hb : ∀ i ∈ S, i < NUM_POINTS - 1) :
    commitVal P v r =
      batchWit P v r S + (S.map (fun j => nth v j • P (j + 1))).sum := by
  have split := filter_map_sum_split (List.range (NUM_POINTS - 1))
    (fun i => ! S.contains i) (fun i => nth v i • P (i + 1))
  simp only [Bool.not_not] at split
  have hperm : (((List.range (NUM_POINTS - 1)).filter
        (fun i => S.contains i)).map (fun i => nth v i • P (i + 1))).Perm
      (S.map (fun i => nth v i • P (i + 1))) :=
    (filter_contains_perm S (NUM_POINTS - 1) hnd hb).map _
  rw [hperm.sum_eq] at split
  unfold commitVal batchWit
  rw [← split]
  abel

lemma commitVal_split_single (v : List F) (r : F) (j : Nat)
    (hj : j < NUM_POINTS - 1) :
    commitVal P v r = openWit P v r j + nth v j • P (j + 1) := by
  rw [openWit_eq_batchWit]
  have := commitVal_split P v r [j] (by simp) (by simpa using hj)
  simpa using this

end PCSLemmas

lemma hasAdjEq_sortNat_true_of_not_nodup (I : List Nat) (h : ¬ I.Nodup) :
    hasAdjEq (sortNat I) = true := by
  by_contra hfalse
  have hf : hasAdjEq (sortNat I) = false := by
    revert hfalse
    cases hasAdjEq (sortNat I) <;> simp
  exact h ((sortNat_perm I).nodup_iff.mp
    (nodup_of_sorted_hasAdjEq_false _ (sortNat_sorted I) hf))

section BatchLemmas

variable {F : Type} [Field F] [DecidableEq F]
variable {M : Type} [AddCommGroup M] [Module F M]
variable [DecidableEq M]
variable (P : Nat → M)

lemma batch_open_ok (v : List F) (r : F) (I : List Nat) (hne : I ≠ [])
    (hnd : I.Nodup) (hb : ∀ i ∈ I, i < v.length)
    (hv : NUM_POINTS - 1 ≤ v.length) :
    batch_open P v r I =
      some (.ok ((sortNat I).map (fun j => nth v j), r,
        batchWit P v r (sortNat I))) := by
  simp only [batch_open]
  rw [if_neg (by simp [hne])]
  have hSnd : (sortNat I).Nodup := (sortNat_perm I).nodup_iff.mpr hnd
  have hSb : ∀ i ∈ sortNat I, i < v.length :=
    fun i hi => hb i ((sortNat_perm I).mem_iff.mp hi)
  rw [if_neg (by simp [hasAdjEq_false_of_nodup _ hSnd])]
  rw [if_neg (by
    simp only [List.any_eq_true, decide_eq_true_eq, not_exists]
    intro i
    rw [not_and]
    intro hi
    have := hSb i hi
    omega)]
  rw [seqMap_all_lt v (fun i vi => vi • P (i + 1)) _ (by
    intro i hi
    have := List.mem_range.mp (List.mem_filter.mp hi).1
    omega)]
  rfl

lemma batch_open_panic (v : List F) (r : F) (I : List Nat) (hne : I ≠ [])
    (hnd : I.Nodup) (hb : ∀ i ∈ I, i < v.length)
    (hv : v.length < NUM_POINTS - 1) :
    batch_open P v r I = none := by
  simp only [batch_open]
  rw [if_neg (by simp [hne])]
  have hSnd : (sortNat I).Nodup := (sortNat_perm I).nodup_iff.mpr hnd
  have hSb : ∀ i ∈ sortNat I, i < v.length :=
    fun i hi => hb i ((sortNat_perm I).mem_iff.mp hi)
  rw [if_neg (by simp [hasAdjEq_false_of_nodup _ hSnd])]
  rw [if_neg (by
    simp only [List.any_eq_true, decide_eq_true_eq, not_exists]
    intro i
    rw [not_and]
    intro hi
    have := hSb i hi
    omega)]
  rw [seqMap_panic v (fun i vi => vi • P (i + 1)) _ ?hex]
  case hex =>
    refine ⟨v.length, ?_, le_refl _⟩
    rw [List.mem_filter]
    refine ⟨List.mem_range.mpr (by omega), ?_⟩
    simp only [Bool.not_eq_true']
    by_contra hc
    have hmem : v.length ∈ sortNat I := by
      simpa using hc
    exact absurd (hSb _ hmem) (lt_irrefl _)

lemma batch_open_empty_iff (v : List F) (r : F) (I : List Nat) :
    batch_open P v r I = some (.error .emptyIndices) ↔ I = [] := by
  rcases eq_or_ne I [] with rfl | hne
  · simp [batch_open]
  · simp only [batch_open]
    rw [if_neg (by simp [hne])]
    simp only [hne, iff_false]
    split_ifs with h1 h2
    · simp
    · simp
    · cases hsm : seqMap (fun i => (idx v i).map (fun vi => vi • P (i + 1)))
          ((List.range (NUM_POINTS - 1)).filter
            (fun i => ! (sortNat I).contains i)) <;> simp [hsm]

lemma batch_open_dup_iff (v : List F) (r : F) (I : List Nat) :
    batch_open P v r I = some (.error .duplicateIndex) ↔ ¬ I.Nodup := by
  rcases eq_or_ne I [] with rfl | hne
  · simp [batch_open]
  · simp only [batch_open]
    rw [if_neg (by simp [hne])]
    by_cases hdup : I.Nodup
    · have hSnd : (sortNat I).Nodup := (sortNat_perm I).nodup_iff.mpr hdup
      rw [if_neg (by simp [hasAdjEq_false_of_nodup _ hSnd])]
      simp only [hdup, not_true_eq_false, iff_false]
      split_ifs with h2
      · simp
      · cases hsm : seqMap (fun i => (idx v i).map (fun vi => vi • P (i + 1)))
            ((List.range (NUM_POINTS - 1)).filter
              (fun i => ! (sortNat I).contains i)) <;> simp [hsm]
    · rw [if_pos (by simp [hasAdjEq_sortNat_true_of_not_nodup I hdup])]
      simp [hdup]

lemma batch_open_oob_iff (v : List F) (r : F) (I : List Nat) :
    batch_open P v r I = some (.error .indexOutOfBounds) ↔
      I ≠ [] ∧ I.Nodup ∧ ∃ i ∈ I, v.length ≤ i := by
  rcases eq_or_ne I [] with rfl | hne
  · simp [batch_open]
  · simp only [batch_open]
    rw [if_neg (by simp [hne])]
    by_cases hdup : I.Nodup
    · have hSnd : (sortNat I).Nodup := (sortNat_perm I).nodup_iff.mpr hdup
      rw [if_neg (by simp [hasAdjEq_false_of_nodup _ hSnd])]
      by_cases hoob : ∃ i ∈ I, v.length ≤ i
      · obtain ⟨i, hi, hge⟩ := hoob
        rw [if_pos (by
          simp only [List.any_eq_true, decide_eq_true_eq]
          exact ⟨i, (sortNat_perm I).mem_iff.mpr hi, hge⟩)]
        exact iff_of_true rfl ⟨hne, hdup, ⟨i, hi, hge⟩⟩
      · rw [if_neg (by
          simp only [List.any_eq_true, decide_eq_true_eq, not_exists]
          intro i
          rw [not_and]
          intro hi
          have hmem := (sortNat_perm I).mem_iff.mp hi
          rw [not_le]
          by_contra hc
          exact hoob ⟨i, hmem, by omega⟩)]
        simp only [hne, hdup, hoob, and_false, true_and, ne_eq,
          not_false_eq_true, iff_false]
        cases hsm : seqMap (fun i => (idx v i).map (fun vi => vi • P (i + 1)))
            ((List.range (NUM_POINTS - 1)).filter
              (fun i => ! (sortNat I).contains i)) <;> simp [hsm]
    · rw [if_pos (by simp [hasAdjEq_sortNat_true_of_not_nodup I hdup])]
      simp [hdup]

lemma batch_open_perm_inv (v : List F) (r : F) {I I' : List Nat}
    (hp : I.Perm I') :
    batch_open P v r I = batch_open P v r I' := by
  have hsort := sortNat_eq_of_perm hp
  have hempty : I.isEmpty = I'.isEmpty := by
    cases I with
    | nil =>
      have : I' = [] := by
        have := hp.length_eq
        cases I' with
        | nil => rfl
        | cons a t => simp at this
      rw [this]
    | cons a t =>
      have : I' ≠ [] := by
        intro e
        rw [e] at hp
        have := hp.length_eq
        simp at this
      simp [this]
  simp only [batch_open, hempty, hsort]

lemma batch_open_values_of_ok (v : List F) (r : F) (I : List Nat)
    (vals : List F) (r' : F) (w : M)
    (h : batch_open P v r I = some (.ok (vals, r', w))) :
    vals = (sortNat I).map (fun j => nth v j) ∧ r' = r := by
  rcases eq_or_ne I [] with rfl | hne
  · simp [batch_open] at h
  · simp only [batch_open] at h
    rw [if_neg (by simp [hne])] at h
    split_ifs at h with h1 h2
    · simp at h
    · simp at h
    · revert h
      cases hsm : seqMap (fun i => (idx v i).map (fun vi => vi • P (i + 1)))
          ((List.range (NUM_POINTS - 1)).filter
            (fun i => ! (sortNat I).contains i)) with
      | none => intro h; simp at h
      | some terms =>
        intro h
        simp only [Option.some.injEq, Except.ok.injEq, Prod.mk.injEq] at h
        exact ⟨h.1.symm, h.2.1.symm⟩

lemma batch_check_len_iff (c : M) (values : List F) (w : M)
    (idxs : List Nat) :
    batch_check P c values w idxs = some (.error .lengthMismatch) ↔
      values.length ≠ idxs.length := by
  simp only [batch_check]
  by_cases h : values.length = idxs.length
  · rw [if_neg (by simp [h])]
    simp only [h, ne_eq, not_true_eq_false, iff_false]
    split_ifs with h2 h3
    · simp
    · simp
    · simp
  · rw [if_pos (by simp [h])]
    simp [h]

lemma batch_check_unsorted_iff (c : M) (values : List F) (w : M)
    (idxs : List Nat) :
    batch_check P c values w idxs = some (.error .unsortedOrDuplicate) ↔
      values.length = idxs.length ∧ ¬ idxs.Sorted (· < ·) := by
  simp only [batch_check]
  by_cases h : values.length = idxs.length
  · rw [if_neg (by simp [h])]
    by_cases hs : idxs.Sorted (· < ·)
    · rw [if_neg (by simp [(hasUnsorted_false_iff idxs).mpr hs])]
      simp only [h, hs, not_true_eq_false, and_false, iff_false]
      split_ifs with h3
      · simp
      · simp
    · have hu : hasUnsorted idxs = true := by
        cases hA : hasUnsorted idxs
        · exact absurd ((hasUnsorted_false_iff idxs).mp hA) hs
        · rfl
      rw [if_pos (by simp [hu])]
      simp [h, hs]
  · rw [if_pos (by simp [h])]
    simp [h]

lemma batch_check_ok_eq (c : M) (values : List F) (w : M) (idxs : List Nat)
    (hlen : values.length = idxs.length) (hsorted : idxs.Sorted (· < ·))
    (hb : ∀ j ∈ idxs, j + 1 < NUM_POINTS) :
    batch_check P c values w idxs =
      some (.ok (decide (c = w +
        ((values.zip idxs).map (fun pr => pr.1 • P (pr.2 + 1))).sum))) := by
  simp only [batch_check]
  rw [if_neg (by simp [hlen])]
  rw [if_neg (by simp [(hasUnsorted_false_iff idxs).mpr hsorted])]
  rw [if_neg (by
    simp only [List.any_eq_true, decide_eq_true_eq, not_exists]
    intro j
    rw [not_and]
    intro hj
    have := hb j hj
    omega)]
  rw [foldl_add_eq]

end BatchLemmas

section AccLemmas

variable {F : Type} [Field F] [DecidableEq F]
variable {M : Type} [AddCommGroup M] [Module F M]
variable [DecidableEq M]
variable (P : Nat → M) (H : M → M → F)

lemma commit_error_eq (v : List F) (r : F) (e : Err)
    (h : commit P v r = .error e) : e = Err.lengthMismatch := by
  unfold commit at h
  by_cases hl : v.length ≠ NUM_POINTS - 1
  · rw [if_pos hl] at h
    simp only [Except.error.injEq] at h
    exact h.symm
  · rw [if_neg hl] at h
    simp at h

lemma insert_err (roots : List F) (a : M) (r : F)
    (h : roots.length ≠ NUM_POINTS - 2) :
    insert P H roots a r = .error .lengthMismatch := by
  simp only [insert]
  rw [(commit_err_iff P _ r).mpr (by
    rw [poly_from_roots_length]
    simp only [NUM_POINTS] at h ⊢
    omega)]

lemma insert_ok (roots : List F) (a : M) (r : F)
    (h : roots.length = NUM_POINTS - 2) :
    insert P H roots a r = .ok
      { Accumulator := H a (commitVal P (poly_from_roots roots) r) • a +
          commitVal P (poly_from_roots roots) r,
        Commitment := commitVal P (poly_from_roots roots) r } := by
  simp only [insert]
  rw [commit_ok P _ r (by
    rw [poly_from_roots_length]
    simp only [NUM_POINTS] at h ⊢
    omega)]

lemma cnm_member_iff (roots : List F) (v : F) (r : F) (s : M) :
    check_non_membership P H roots v r s = .error .candidateIsMember ↔
      evaluate_poly (poly_from_roots roots) v = 0 := by
  simp only [check_non_membership]
  by_cases h : evaluate_poly (poly_from_roots roots) v = 0
  · simp [h]
  · rw [if_neg h]
    simp only [h, iff_false]
    cases hc : commit P (poly_from_roots roots) r with
    | error e =>
      have he := commit_error_eq P _ r e hc
      subst he
      simp
    | ok p => simp

lemma cnm_ok (roots : List F) (vc : F) (r : F) (s : M) (p : M)
    (ha : evaluate_poly (poly_from_roots roots) vc ≠ 0)
    (hc : commit P (poly_from_roots roots) r = .ok p) :
    check_non_membership P H roots vc r s = .ok
      { Accumulator :=
          H s (p - evaluate_poly (poly_from_roots roots) vc •
            P BLINDING_INDEX) • s +
          (p - evaluate_poly (poly_from_roots roots) vc • P BLINDING_INDEX),
        Commitment := p } := by
  simp only [check_non_membership]
  rw [if_neg ha, hc]

lemma cnm_err (roots : List F) (v : F) (r : F) (s : M) (hnm : v ∉ roots)
    (hlen : roots.length ≠ NUM_POINTS - 2) :
    check_non_membership P H roots v r s = .error .lengthMismatch := by
  simp only [check_non_membership]
  rw [if_neg (fun h =>
    hnm ((evaluate_poly_from_roots_eq_zero_iff roots v).mp h))]
  rw [(commit_err_iff P _ r).mpr (by
    rw [poly_from_roots_length]
    simp only [NUM_POINTS] at hlen ⊢
    omega)]

end AccLemmas

section TakeLemmas

variable {F : Type} [Field F] [DecidableEq F]
variable {M : Type} [AddCommGroup M] [Module F M]
variable [DecidableEq M]
variable (P : Nat → M)

lemma nth_eq_of_take_eq {α : Type} [Zero α] (v w : List α) (n i : Nat)
    (h : v.take n = w.take n) (hi : i < n) : nth v i = nth w i := by
  have h1 : v[i]? = w[i]? := by
    have hv := @List.getElem?_take α v n i
    have hw := @List.getElem?_take α w n i
    rw [if_pos hi] at hv hw
    rw [← hv, ← hw, h]
  simp [nth, List.getD_eq_getElem?_getD, h1]

lemma openWit_congr_take (v w : List F) (r : F) (j : Nat)
    (h : v.take (NUM_POINTS - 1) = w.take (NUM_POINTS - 1)) :
    openWit P v r j = openWit P w r j := by
  unfold openWit
  congr 1
  refine congrArg List.sum ?_
  apply List.map_congr_left
  intro i hi
  have hir := List.mem_range.mp (List.mem_filter.mp hi).1
  rw [nth_eq_of_take_eq v w _ i h hir]

lemma batchWit_congr_take (v w : List F) (r : F) (S : List Nat)
    (h : v.take (NUM_POINTS - 1) = w.take (NUM_POINTS - 1)) :
    batchWit P v r S = batchWit P w r S := by
  unfold batchWit
  congr 1
  refine congrArg List.sum ?_
  apply List.map_congr_left
  intro i hi
  have hir := List.mem_range.mp (List.mem_filter.mp hi).1
  rw [nth_eq_of_take_eq v w _ i h hir]

end TakeLemmas

section Claims

variable {F : Type} [Field F] [DecidableEq F]
variable {M : Type} [AddCommGroup M] [Module F M]
variable [DecidableEq M]

/-- C1: for every scalar vector `v` and blinding scalar `r`, `commit v r`
returns `r·generators[0] + Σᵢ v[i]·generators[i+1]` when `v` has length
`NUM_POINTS - 1 = 19`, and fails with `LengthMismatch` exactly when
`v.length ≠ NUM_POINTS - 1`. -/
theorem claim_C1 (P : Nat → M) (v : List F) (r : F) :
    (v.length = NUM_POINTS - 1 →
      commit P v r = .ok (r • P BLINDING_INDEX +
        ((List.range (NUM_POINTS - 1)).map
          (fun i => nth v i • P (i + 1))).sum)) ∧
    (commit P v r = .error .lengthMismatch ↔ v.length ≠ NUM_POINTS - 1) :=
  ⟨fun h => commit_ok P v r h, commit_err_iff P v r⟩

/-- C1 witness at a concrete length-19 vector over `ZMod 5`. -/
theorem claim_C1_witness :
    commit Pw vw 2 = .ok ((2 : ZMod 5) • Pw BLINDING_INDEX +
      ((List.range (NUM_POINTS - 1)).map
        (fun i => nth vw i • Pw (i + 1))).sum) ∧
    (commit Pw (vw ++ [1]) 2 = .error .lengthMismatch ↔
      (vw ++ [1]).length ≠ NUM_POINTS - 1) :=
  ⟨(claim_C1 Pw vw 2).1 (by decide), (claim_C1 Pw (vw ++ [1]) 2).2⟩

/-- C2: for every value vector `v` of length `NUM_POINTS - 1`, blinding `r`
and index `j < NUM_POINTS - 1`, `check` accepts the witness returned by
`openAt` against the commitment returned by `commit` at generator `P (j+1)`. -/
theorem claim_C2 (P : Nat → M) (v : List F) (r : F) (j : Nat)
    (hv : v.length = NUM_POINTS - 1) (hj : j < NUM_POINTS - 1) :
    commit P v r = .ok (commitVal P v r) ∧
    openAt P v r j = some (.ok (nth v j, r, openWit P v r j)) ∧
    check (commitVal P v r) (nth v j) (openWit P v r j) (P (j + 1)) = true := by
  refine ⟨commit_ok P v r hv,
    open_ok P v r j (hv ▸ hj) (le_of_eq hv.symm), ?_⟩
  unfold check
  rw [decide_eq_true_eq]
  exact commitVal_split_single P v r j hj

/-- C2 witness at a concrete vector and index. -/
theorem claim_C2_witness :
    commit Pw vw 2 = .ok (commitVal Pw vw 2) ∧
    openAt Pw vw 2 3 = some (.ok (nth vw 3, 2, openWit Pw vw 2 3)) ∧
    check (commitVal Pw vw 2) (nth vw 3) (openWit Pw vw 2 3)
      (Pw (3 + 1)) = true :=
  claim_C2 Pw vw 2 3 (by decide) (by decide)

/-- C3: for every value vector `v` of length `NUM_POINTS - 1`, blinding `r`
and non-empty, duplicate-free, in-bounds index set `I`, `batch_check` accepts
the values and witness returned by `batch_open` on the sorted index list. -/
theorem claim_C3 (P : Nat → M) (v : List F) (r : F) (I : List Nat)
    (hv : v.length = NUM_POINTS - 1) (hne : I ≠ []) (hnd : I.Nodup)
    (hb : ∀ i ∈ I, i < v.length) :
    commit P v r = .ok (commitVal P v r) ∧
    batch_open P v r I = some (.ok ((sortNat I).map (fun j => nth v j), r,
      batchWit P v r (sortNat I))) ∧
    batch_check P (commitVal P v r) ((sortNat I).map (fun j => nth v j))
      (batchWit P v r (sortNat I)) (sortNat I) = some (.ok true) := by
  have hSnd : (sortNat I).Nodup := (sortNat_perm I).nodup_iff.mpr hnd
  have hSb : ∀ i ∈ sortNat I, i < NUM_POINTS - 1 :=
    fun i hi => hv ▸ hb i ((sortNat_perm I).mem_iff.mp hi)
  refine ⟨commit_ok P v r hv,
    batch_open_ok P v r I hne hnd hb (le_of_eq hv.symm), ?_⟩
  rw [batch_check_ok_eq P (commitVal P v r) _ _ _ (by simp)
    (sorted_lt_of_sorted_le_nodup _ (sortNat_sorted I) hSnd)
    (fun j hj => by
      have := hSb j hj
      simp only [NUM_POINTS] at this ⊢
      omega)]
  have key : commitVal P v r =
      batchWit P v r (sortNat I) +
        ((((sortNat I).map (fun j => nth v j)).zip (sortNat I)).map
          (fun pr => pr.1 • P (pr.2 + 1))).sum := by
    rw [zip_map_self, List.map_map]
    exact commitVal_split P v r (sortNat I) hSnd hSb
  rw [key]
  simp

/-- C3 witness at a concrete vector and index set, supplied unsorted. -/
theorem claim_C3_witness :
    commit Pw vw 2 = .ok (commitVal Pw vw 2) ∧
    batch_open Pw vw 2 [4, 0, 7] = some (.ok
      ((sortNat [4, 0, 7]).map (fun j => nth vw j), 2,
        batchWit Pw vw 2 (sortNat [4, 0, 7]))) ∧
    batch_check Pw (commitVal Pw vw 2)
      ((sortNat [4, 0, 7]).map (fun j => nth vw j))
      (batchWit Pw vw 2 (sortNat [4, 0, 7])) (sortNat [4, 0, 7]) =
      some (.ok true) :=
  claim_C3 Pw vw 2 [4, 0, 7] (by decide) (by decide) (by decide) (by decide)

/-- C4: `insert` (and `check_non_membership` on a non-member candidate)
returns the `LengthMismatch` error of the inner `commit` call unless the
number of roots is exactly `NUM_POINTS - 2 = 18`, because the committed
coefficient vector has length `|roots| + 1`; with exactly 18 roots `insert`
succeeds, so the root set is never silently padded or truncated. -/
theorem claim_C4 (P : Nat → M) (H : M → M → F) (roots : List F) (a : M)
    (r : F) (v : F) (s : M) :
    (roots.length ≠ NUM_POINTS - 2 →
      insert P H roots a r = .error .lengthMismatch) ∧
    (roots.length = NUM_POINTS - 2 →
      insert P H roots a r = .ok
        { Accumulator := H a (commitVal P (poly_from_roots roots) r) • a +
            commitVal P (poly_from_roots roots) r,
          Commitment := commitVal P (poly_from_roots roots) r }) ∧
    (v ∉ roots → roots.length ≠ NUM_POINTS - 2 →
      check_non_membership P H roots v r s = .error .lengthMismatch) :=
  ⟨fun h => insert_err P H roots a r h,
   fun h => insert_ok P H roots a r h,
   fun h1 h2 => cnm_err P H roots v r s h1 h2⟩

/-- C4 witness: 3 roots fail with `LengthMismatch`, 18 roots succeed. -/
theorem claim_C4_witness :
    insert Pw Hw (List.replicate 3 (1 : ZMod 5)) 0 2 =
      .error .lengthMismatch ∧
    insert Pw Hw (List.replicate 18 (1 : ZMod 5)) 0 2 = .ok
      { Accumulator := Hw 0 (commitVal Pw
          (poly_from_roots (List.replicate 18 (1 : ZMod 5))) 2) • 0 +
          commitVal Pw (poly_from_roots (List.replicate 18 (1 : ZMod 5))) 2,
        Commitment :=
          commitVal Pw (poly_from_roots (List.replicate 18 (1 : ZMod 5))) 2 } :=
  ⟨(claim_C4 Pw Hw (List.replicate 3 (1 : ZMod 5)) 0 2 0 0).1 (by decide),
   (claim_C4 Pw Hw (List.replicate 18 (1 : ZMod 5)) 0 2 0 0).2.1 (by decide)⟩

/-- C5: `check_non_membership` fails with `CandidateIsMember` exactly when the
polynomial built from the roots evaluates to zero at the candidate, which
holds iff the candidate is one of the roots; the membership test precedes the
commitment (the iff holds for every root-set length), and for a non-member
candidate with the length precondition the call succeeds. -/
theorem claim_C5 (P : Nat → M) (H : M → M → F) (roots : List F) (v : F)
    (r : F) (s : M) :
    (check_non_membership P H roots v r s = .error .candidateIsMember ↔
      evaluate_poly (poly_from_roots roots) v = 0) ∧
    (evaluate_poly (poly_from_roots roots) v = 0 ↔ v ∈ roots) ∧
    (v ∉ roots → roots.length = NUM_POINTS - 2 →
      check_non_membership P H roots v r s = .ok (nmState P H roots v r s)) := by
  refine ⟨cnm_member_iff P H roots v r s,
    evaluate_poly_from_roots_eq_zero_iff roots v, ?_⟩
  intro hnm hlen
  have ha : evaluate_poly (poly_from_roots roots) v ≠ 0 := fun h =>
    hnm ((evaluate_poly_from_roots_eq_zero_iff roots v).mp h)
  have hc := commit_ok P (poly_from_roots roots) r (by
    rw [poly_from_roots_length]
    simp only [NUM_POINTS] at hlen ⊢
    omega)
  exact cnm_ok P H roots v r s (commitVal P (poly_from_roots roots) r) ha hc

/-- C5 witness: a member candidate is rejected, a fresh candidate with 18
roots is accepted. -/
theorem claim_C5_witness :
    check_non_membership Pw Hw [1, 2] 1 2 0 = .error .candidateIsMember ∧
    check_non_membership Pw Hw (List.replicate 18 (1 : ZMod 5)) 3 2 0 =
      .ok (nmState Pw Hw (List.replicate 18 (1 : ZMod 5)) 3 2 0) :=
  ⟨(claim_C5 Pw Hw [1, 2] 1 2 0).1.mpr (by decide),
   (claim_C5 Pw Hw (List.replicate 18 (1 : ZMod 5)) 3 2 0).2.2
     (by decide) (by decide)⟩

/-- C6: on success `check_non_membership` folds the adjusted commitment
`P' = p - α·generators[0]` (`α` the polynomial's evaluation at the candidate,
`generators[0]` the blinding generator): the returned `Accumulator` is
`H(previous, P')·previous + P'` while the returned `Commitment` is the
unadjusted commitment `p`. -/
theorem claim_C6 (P : Nat → M) (H : M → M → F) (roots : List F) (vc : F)
    (r : F) (s : M) (p : M)
    (ha : evaluate_poly (poly_from_roots roots) vc ≠ 0)
    (hc : commit P (poly_from_roots roots) r = .ok p) :
    check_non_membership P H roots vc r s = .ok
      { Accumulator :=
          H s (p - evaluate_poly (poly_from_roots roots) vc •
            P BLINDING_INDEX) • s +
          (p - evaluate_poly (poly_from_roots roots) vc • P BLINDING_INDEX),
        Commitment := p } :=
  cnm_ok P H roots vc r s p ha hc

/-- C6 witness at 18 concrete roots and a non-member candidate. -/
theorem claim_C6_witness :
    check_non_membership Pw Hw (List.replicate 18 (1 : ZMod 5)) 3 2 0 = .ok
      { Accumulator :=
          Hw 0 (commitVal Pw (poly_from_roots (List.replicate 18 (1 : ZMod 5))) 2 -
            evaluate_poly (poly_from_roots (List.replicate 18 (1 : ZMod 5))) 3 •
              Pw BLINDING_INDEX) • 0 +
          (commitVal Pw (poly_from_roots (List.replicate 18 (1 : ZMod 5))) 2 -
            evaluate_poly (poly_from_roots (List.replicate 18 (1 : ZMod 5))) 3 •
              Pw BLINDING_INDEX),
        Commitment :=
          commitVal Pw (poly_from_roots (List.replicate 18 (1 : ZMod 5))) 2 } :=
  claim_C6 Pw Hw (List.replicate 18 (1 : ZMod 5)) 3 2 0
    (commitVal Pw (poly_from_roots (List.replicate 18 (1 : ZMod 5))) 2)
    (by decide) (commit_ok Pw (poly_from_roots (List.replicate 18 (1 : ZMod 5)))
      2 (by decide))

/-- C7: the witness returned by `openAt` — computed as the sum over the other
coordinates plus the blind — equals `commit v r - generators[j+1]·v[j]`, and
`openAt` fails with `IndexOutOfBounds` exactly when `j ≥ v.length`. -/
theorem claim_C7 (P : Nat → M) (v : List F) (r : F) (j : Nat) :
    (v.length = NUM_POINTS - 1 → j < NUM_POINTS - 1 →
      openAt P v r j = some (.ok (nth v j, r, openWit P v r j)) ∧
      openWit P v r j = commitVal P v r - nth v j • P (j + 1)) ∧
    (openAt P v r j = some (.error .indexOutOfBounds) ↔ v.length ≤ j) := by
  refine ⟨?_, open_oob_iff P v r j⟩
  intro hv hj
  refine ⟨open_ok P v r j (hv ▸ hj) (le_of_eq hv.symm), ?_⟩
  exact eq_sub_of_add_eq (commitVal_split_single P v r j hj).symm

/-- C7 witness at a concrete vector and index. -/
theorem claim_C7_witness :
    openAt Pw vw 2 3 = some (.ok (nth vw 3, 2, openWit Pw vw 2 3)) ∧
    openWit Pw vw 2 3 = commitVal Pw vw 2 - nth vw 3 • Pw (3 + 1) :=
  (claim_C7 Pw vw 2 3).1 (by decide) (by decide)

/-- C8: `batch_open` fails with `EmptyIndices` exactly on the empty index
list, with `DuplicateIndex` exactly when the list has a repeat, and with
`IndexOutOfBounds` exactly when it is non-empty and duplicate-free but some
index is out of bounds — all before any witness computation; on success the
returned values are the entries of `v` at the requested indices in ascending
index order, independent of the order in which the indices were supplied. -/
theorem claim_C8 (P : Nat → M) (v : List F) (r : F) (I : List Nat) :
    (batch_open P v r I = some (.error .emptyIndices) ↔ I = []) ∧
    (batch_open P v r I = some (.error .duplicateIndex) ↔ ¬ I.Nodup) ∧
    (batch_open P v r I = some (.error .indexOutOfBounds) ↔
      I ≠ [] ∧ I.Nodup ∧ ∃ i ∈ I, v.length ≤ i) ∧
    (∀ vals r' w, batch_open P v r I = some (.ok (vals, r', w)) →
      vals = (sortNat I).map (fun j => nth v j)) ∧
    (∀ I', I.Perm I' → batch_open P v r I = batch_open P v r I') :=
  ⟨batch_open_empty_iff P v r I, batch_open_dup_iff P v r I,
   batch_open_oob_iff P v r I,
   fun vals r' w h => (batch_open_values_of_ok P v r I vals r' w h).1,
   fun _ hp => batch_open_perm_inv P v r hp⟩

/-- C8 witness: empty, duplicate and permuted index lists at concrete
inputs. -/
theorem claim_C8_witness :
    batch_open Pw vw 2 [] = some (.error .emptyIndices) ∧
    batch_open Pw vw 2 [1, 1] = some (.error .duplicateIndex) ∧
    batch_open Pw vw 2 [3, 7] = batch_open Pw vw 2 [7, 3] :=
  ⟨(claim_C8 Pw vw 2 []).1.mpr rfl,
   (claim_C8 Pw vw 2 [1, 1]).2.1.mpr (by decide),
   (claim_C8 Pw vw 2 [3, 7]).2.2.2.2 [7, 3] (by decide)⟩

/-- C9 counterexample: the input `values = [0]`, `indices = [19]` is
well-formed in the claim's sense (matching lengths, strictly increasing
indices), yet `batch_check` does not return a boolean: the generator-table
access `POINTS[19 + 1]` is out of range for the 20-element table, a panic
(modelled as `none`), so the claim that every well-formed input yields a
boolean fails. -/
theorem claim_C9_counterexample :
    ([(0 : ZMod 5)].length = ([19] : List Nat).length) ∧
    ([19] : List Nat).Sorted (· < ·) ∧
    batch_check Pw (0 : ZMod 5) [(0 : ZMod 5)] 0 [19] = none :=
  ⟨rfl, by decide, rfl⟩

/-- C9 (amended): `batch_check` returns `LengthMismatch` exactly when the
lengths differ and `UnsortedOrDuplicate` exactly when the lengths match but
the indices are not strictly increasing; on well-formed input whose indices
are all `< NUM_POINTS - 1` it returns `Ok` of a boolean — a mere mismatch is
`Ok false`, never an error — while an index `≥ NUM_POINTS - 1` makes the
generator lookup panic instead of returning; the single `check` never errors,
being the boolean `c = witness + v_j·h_j` by definition. -/
theorem claim_C9 (P : Nat → M) (c : M) (values : List F) (w : M)
    (idxs : List Nat) (v_j : F) (h_j : M) :
    (batch_check P c values w idxs = some (.error .lengthMismatch) ↔
      values.length ≠ idxs.length) ∧
    (batch_check P c values w idxs = some (.error .unsortedOrDuplicate) ↔
      values.length = idxs.length ∧ ¬ idxs.Sorted (· < ·)) ∧
    (values.length = idxs.length → idxs.Sorted (· < ·) →
      (∀ j ∈ idxs, j < NUM_POINTS - 1) →
      batch_check P c values w idxs = some (.ok (decide (c = w +
        ((values.zip idxs).map (fun pr => pr.1 • P (pr.2 + 1))).sum)))) ∧
    (check c v_j w h_j = decide (c = w + v_j • h_j)) := by
  refine ⟨batch_check_len_iff P c values w idxs,
    batch_check_unsorted_iff P c values w idxs, ?_, rfl⟩
  intro h1 h2 h3
  exact batch_check_ok_eq P c values w idxs h1 h2 (fun j hj => by
    have := h3 j hj
    simp only [NUM_POINTS] at this ⊢
    omega)

/-- C9 witness: a well-formed in-bounds instance evaluated through the
amended theorem. -/
theorem claim_C9_witness :
    batch_check Pw (0 : ZMod 5) [(1 : ZMod 5)] 0 [2] = some (.ok
      (decide ((0 : ZMod 5) = 0 + ((([(1 : ZMod 5)].zip [2]).map
        (fun pr => pr.1 • Pw (pr.2 + 1))).sum)))) :=
  (claim_C9 Pw 0 [(1 : ZMod 5)] 0 [2] 0 0).2.2.1 (by decide) (by decide)
    (by decide)

/-- C10: `openAt` and `batch_open` bounds-check only the requested indices,
but read every non-opened slot `i < NUM_POINTS - 1` of `v`; hence for
`v.length < NUM_POINTS - 1` every call with in-bounds requested indices hits
an out-of-range access (a panic, `none`, not a returned error), while for
`v.length > NUM_POINTS - 1` the call succeeds and the witness ignores the
entries beyond index `NUM_POINTS - 2` instead of rejecting them. -/
theorem claim_C10 (P : Nat → M) (v : List F) (r : F) :
    (v.length < NUM_POINTS - 1 → ∀ j, j < v.length →
      openAt P v r j = none) ∧
    (v.length < NUM_POINTS - 1 → ∀ I : List Nat, I ≠ [] → I.Nodup →
      (∀ i ∈ I, i < v.length) → batch_open P v r I = none) ∧
    (NUM_POINTS - 1 < v.length → ∀ j, j < v.length →
      openAt P v r j = some (.ok (nth v j, r, openWit P v r j))) ∧
    (∀ w : List F, v.take (NUM_POINTS - 1) = w.take (NUM_POINTS - 1) →
      ∀ j, openWit P v r j = openWit P w r j) ∧
    (∀ S : List Nat, ∀ w : List F,
      v.take (NUM_POINTS - 1) = w.take (NUM_POINTS - 1) →
      batchWit P v r S = batchWit P w r S) :=
  ⟨fun hv j hj => open_panic P v r j hj hv,
   fun hv I hne hnd hb => batch_open_panic P v r I hne hnd hb hv,
   fun hv j hj => open_ok P v r j hj (le_of_lt hv),
   fun w h j => openWit_congr_take P v w r j h,
   fun S w h => batchWit_congr_take P v w r S h⟩

/-- C10 witness: a length-3 vector panics on open and batch-open, a length-21
vector opens successfully. -/
theorem claim_C10_witness :
    openAt Pw (List.replicate 3 (1 : ZMod 5)) 2 0 = none ∧
    batch_open Pw (List.replicate 3 (1 : ZMod 5)) 2 [0, 2] = none ∧
    openAt Pw (List.replicate 21 (1 : ZMod 5)) 2 20 = some (.ok
      (nth (List.replicate 21 (1 : ZMod 5)) 20, 2,
        openWit Pw (List.replicate 21 (1 : ZMod 5)) 2 20)) :=
  ⟨(claim_C10 Pw (List.replicate 3 (1 : ZMod 5)) 2).1 (by decide) 0 (by decide),
   (claim_C10 Pw (List.replicate 3 (1 : ZMod 5)) 2).2.1 (by decide) [0, 2]
     (by decide) (by decide) (by decide),
   (claim_C10 Pw (List.replicate 21 (1 : ZMod 5)) 2).2.2.1 (by decide) 20
     (by decide)⟩

end Claims

end OSS
